import Mathlib

/-!
Verification of `itestcontainer` (`itestcontainer.go`), a shim that parses
comma-separated flags (container name, env passthrough list, port mappings,
volume mounts, labels), derives a container configuration — including a
deterministic volume-name suffix obtained by SHA-256-hashing the `TEST_TARGET`
environment variable — starts a container through the `testcontainers` client,
waits for SIGINT/SIGTERM, and terminates the container.

Go strings are byte sequences; we model them as `List Nat` (each element a
byte).  The pure flag-derivation code of `main` is embedded as executable
functions; the signal-driven shutdown sequence (main goroutine plus the
shutdown goroutine spawned after a successful start) is embedded as a
small-step transition relation over an explicit program-counter state, with
the observable calls to the external runtime recorded in an append-only trace.
-/

/-- Bytes of an ASCII string literal (all literals in the program are ASCII,
where this agrees with Go's UTF-8 `[]byte` conversion). -/
def asciiBytes (s : String) : List Nat := s.data.map Char.toNat

/-- The byte `','` used as separator in all the flag values. -/
def commaB : Nat := 44

/-- The byte `':'` separating volume name from mount path. -/
def colonB : Nat := 58

/-- The byte `'='` separating label key from label value. -/
def eqB : Nat := 61

/-- The byte `'-'` used between volume name and hash suffix. -/
def dashB : Nat := 45

/-- Go `strings.Split(s, sep)` for a single-byte separator (what
`strings.SplitSeq(s, ",")` iterates over): splits at every occurrence of the
separator; the empty string yields one empty segment. -/
def splitOn (sep : Nat) : List Nat → List (List Nat)
  | [] => [[]]
  | b :: rest =>
      match splitOn sep rest with
      | [] => [[]]
      | cur :: more =>
          if b = sep then [] :: cur :: more else (b :: cur) :: more

/-- Go `strings.SplitN(s, sep, 2)` for a single-byte separator: at most two
pieces, split at the first occurrence of the separator (the remainder may
still contain the separator); if the separator does not occur, the result is
the single piece `[s]`. -/
def splitN2 (sep : Nat) : List Nat → List (List Nat)
  | [] => [[]]
  | b :: rest =>
      if b = sep then [[], rest]
      else
        match splitN2 sep rest with
        | [] => [[b]]
        | p :: ps => (b :: p) :: ps

/-! ### SHA-256 (Go `crypto/sha256`) and lowercase hex (Go `encoding/hex`) -/

/-- Truncation to a 32-bit word. -/
def w32 (n : Nat) : Nat := n % 4294967296

/-- Right rotation of a 32-bit word by `k` bits. -/
def rotr32 (k x : Nat) : Nat := w32 ((x >>> k) ||| (x <<< (32 - k)))

/-- SHA-256 `Ch` function (bitwise complement taken within 32 bits). -/
def ch32 (x y z : Nat) : Nat := (x &&& y) ^^^ ((x ^^^ 4294967295) &&& z)

/-- SHA-256 `Maj` function. -/
def maj32 (x y z : Nat) : Nat := (x &&& y) ^^^ (x &&& z) ^^^ (y &&& z)

/-- SHA-256 big sigma 0. -/
def bsig0 (x : Nat) : Nat := rotr32 2 x ^^^ rotr32 13 x ^^^ rotr32 22 x

/-- SHA-256 big sigma 1. -/
def bsig1 (x : Nat) : Nat := rotr32 6 x ^^^ rotr32 11 x ^^^ rotr32 25 x

/-- SHA-256 small sigma 0. -/
def ssig0 (x : Nat) : Nat := rotr32 7 x ^^^ rotr32 18 x ^^^ (x >>> 3)

/-- SHA-256 small sigma 1. -/
def ssig1 (x : Nat) : Nat := rotr32 17 x ^^^ rotr32 19 x ^^^ (x >>> 10)

/-- The 64 SHA-256 round constants. -/
def sha256K : List Nat :=
  [1116352408, 1899447441, 3049323471, 3921009573, 961987163,
   1508970993, 2453635748, 2870763221, 3624381080, 310598401,
   607225278, 1426881987, 1925078388, 2162078206, 2614888103,
   3248222580, 3835390401, 4022224774, 264347078, 604807628,
   770255983, 1249150122, 1555081692, 1996064986, 2554220882,
   2821834349, 2952996808, 3210313671, 3336571891, 3584528711,
   113926993, 338241895, 666307205, 773529912, 1294757372,
   1396182291, 1695183700, 1986661051, 2177026350, 2456956037,
   2730485921, 2820302411, 3259730800, 3345764771, 3516065817,
   3600352804, 4094571909, 275423344, 430227734, 506948616,
   659060556, 883997877, 958139571, 1322822218, 1537002063,
   1747873779, 1955562222, 2024104815, 2227730452, 2361852424,
   2428436474, 2756734187, 3204031479, 3329325298]

/-- Big-endian byte encoding of `v` in exactly `k` bytes. -/
def bytesBE : Nat → Nat → List Nat
  | 0, _ => []
  | k + 1, v => bytesBE k (v / 256) ++ [v % 256]

/-- SHA-256 padding: append `0x80`, zero bytes up to 56 mod 64, then the
message bit length as 8 big-endian bytes. -/
def padMessage (msg : List Nat) : List Nat :=
  msg ++ 128 :: List.replicate ((119 - msg.length % 64) % 64) 0
      ++ bytesBE 8 (msg.length * 8)

/-- Group bytes into big-endian 32-bit words. -/
def toWords : List Nat → List Nat
  | b0 :: b1 :: b2 :: b3 :: rest =>
      (((b0 * 256 + b1) * 256 + b2) * 256 + b3) :: toWords rest
  | _ => []

/-- Split a byte list into 64-byte chunks (structural recursion on a fuel
bound, so that the definition reduces; `l.length` steps always suffice). -/
def chunks64Aux : Nat → List Nat → List (List Nat)
  | _, [] => []
  | 0, _ => []
  | fuel + 1, b :: rest => ((b :: rest).take 64) :: chunks64Aux fuel ((b :: rest).drop 64)

/-- Split a byte list into 64-byte chunks. -/
def chunks64 (l : List Nat) : List (List Nat) := chunks64Aux l.length l

/-- One extension step of the SHA-256 message schedule. -/
def extendStep (w : List Nat) : List Nat :=
  w ++ [w32 (ssig1 (w.getD (w.length - 2) 0) + w.getD (w.length - 7) 0
      + ssig0 (w.getD (w.length - 15) 0) + w.getD (w.length - 16) 0)]

/-- `iterate f n a` applies `f` to `a`, `n` times. -/
def iterate (f : α → α) : Nat → α → α
  | 0, a => a
  | k + 1, a => iterate f k (f a)

/-- The full 64-word SHA-256 message schedule from a 16-word block. -/
def schedule (w16 : List Nat) : List Nat := iterate extendStep 48 w16

/-- The eight 32-bit working variables of the SHA-256 compression function. -/
structure Hash8 where
  a : Nat
  b : Nat
  c : Nat
  d : Nat
  e : Nat
  f : Nat
  g : Nat
  h : Nat
  deriving DecidableEq

/-- SHA-256 initial hash value. -/
def sha256H0 : Hash8 :=
  ⟨1779033703, 3144134277, 1013904242, 2773480762,
   1359893119, 2600822924, 528734635, 1541459225⟩

/-- One SHA-256 compression round. -/
def sha256Round (k w : Nat) (s : Hash8) : Hash8 :=
  let t1 := w32 (s.h + bsig1 s.e + ch32 s.e s.f s.g + k + w)
  let t2 := w32 (bsig0 s.a + maj32 s.a s.b s.c)
  ⟨w32 (t1 + t2), s.a, s.b, s.c, w32 (s.d + t1), s.e, s.f, s.g⟩

/-- Run the rounds over paired constants and schedule words. -/
def sha256Rounds : List Nat → List Nat → Hash8 → Hash8
  | k :: ks, w :: ws, s => sha256Rounds ks ws (sha256Round k w s)
  | _, _, s => s

/-- Compress one 64-byte block into the running hash state. -/
def compress (st : Hash8) (block : List Nat) : Hash8 :=
  let r := sha256Rounds sha256K (schedule (toWords block)) st
  ⟨w32 (st.a + r.a), w32 (st.b + r.b), w32 (st.c + r.c), w32 (st.d + r.d),
   w32 (st.e + r.e), w32 (st.f + r.f), w32 (st.g + r.g), w32 (st.h + r.h)⟩

/-- SHA-256 digest (32 bytes) of a byte message, as in Go's
`sha256.New` / `Write` / `Sum(nil)`. -/
def sha256 (msg : List Nat) : List Nat :=
  let fin := (chunks64 (padMessage msg)).foldl compress sha256H0
  [fin.a, fin.b, fin.c, fin.d, fin.e, fin.f, fin.g, fin.h].flatMap (bytesBE 4)

/-- Lowercase hex digit byte for a nibble. -/
def hexDigit (n : Nat) : Nat := if n < 10 then 48 + n else 87 + n

/-- Go `hex.EncodeToString`: lowercase hexadecimal bytes of a byte list. -/
def hexEncode (bytes : List Nat) : List Nat :=
  bytes.flatMap (fun b => [hexDigit (b / 16), hexDigit (b % 16)])

/-! ### Flag-derived configuration (`main`, before the `testcontainers.Run` call) -/

/-- The ways `main` aborts while deriving the configuration: `log.Fatalf` on a
listed environment variable that is empty or unset, or a Go runtime panic from
indexing past the end of a `SplitN` result. -/
inductive Abort where
  | fatalMissingEnv (key : List Nat)
  | panicIndexOutOfRange
  deriving DecidableEq

/-- Go slice indexing `l[i]`: panics when `i` is out of range. -/
def idx (l : List (List Nat)) (i : Nat) : Except Abort (List Nat) :=
  match l.get? i with
  | some x => Except.ok x
  | none => Except.error Abort.panicIndexOutOfRange

/-- `exposedPorts`: the loop over `strings.SplitSeq(*ports, ",")` that skips
empty segments and appends the rest in order. -/
def exposedPorts : List (List Nat) → List (List Nat)
  | [] => []
  | seg :: rest => if seg = [] then exposedPorts rest else seg :: exposedPorts rest

/-- First-match lookup in an association list (the observable behaviour of a
Go `map[string]string`). -/
def lookupA (k : List Nat) : List (List Nat × List Nat) → Option (List Nat)
  | [] => none
  | kv :: rest => if kv.1 = k then some kv.2 else lookupA k rest

/-- Go map insertion `m[k] = v`: overwrite the binding when the key is
present, otherwise add it. -/
def mapInsert (m : List (List Nat × List Nat)) (k v : List Nat) :
    List (List Nat × List Nat) :=
  if m.any (fun kv => decide (kv.1 = k)) then
    m.map (fun kv => if kv.1 = k then (k, v) else kv)
  else m ++ [(k, v)]

/-- `environment`: the loop over `strings.SplitSeq(*env, ",")` that skips
empty names, calls `log.Fatalf` when `os.Getenv` returns the empty string,
and otherwise stores the passthrough value in the map. -/
def buildEnv (getenv : List Nat → List Nat) (m : List (List Nat × List Nat)) :
    List (List Nat) → Except Abort (List (List Nat × List Nat))
  | [] => Except.ok m
  | k :: rest =>
      if k = [] then buildEnv getenv m rest
      else if getenv k = [] then Except.error (Abort.fatalMissingEnv k)
      else buildEnv getenv (mapInsert m k (getenv k)) rest

/-- `suffix`: empty when `TEST_TARGET` is unset or empty, otherwise the
lowercase hex encoding of the SHA-256 digest of its value. -/
def hexSuffix (testTarget : List Nat) : List Nat :=
  if testTarget = [] then [] else hexEncode (sha256 testTarget)

/-- A `testcontainers.ContainerMount` with a `GenericVolumeMountSource`:
the volume name and the mount target. -/
structure ContainerMount where
  source : List Nat
  target : List Nat
  deriving DecidableEq

/-- The volume name built by `fmt.Sprintf`: `"bazel-itest-" + parts[0]`, with
`"-" + suffix` appended when the suffix is non-empty. -/
def volName (suffix p0 : List Nat) : List Nat :=
  if suffix ≠ [] then asciiBytes "bazel-itest-" ++ p0 ++ dashB :: suffix
  else asciiBytes "bazel-itest-" ++ p0

/-- The body of the volume loop for one non-empty entry: split on the first
`':'`, build the volume name from `parts[0]` and the suffix, and mount it at
`parts[1]` (indexing panics when the entry has no `':'`). -/
def mountOfEntry (suffix entry : List Nat) : Except Abort ContainerMount :=
  let parts := splitN2 colonB entry
  match idx parts 0, idx parts 1 with
  | Except.ok p0, Except.ok p1 => Except.ok ⟨volName suffix p0, p1⟩
  | Except.error a, _ => Except.error a
  | _, Except.error a => Except.error a

/-- `mounts`: the loop over `strings.SplitSeq(*volume, ",")` that skips empty
entries and appends one mount per remaining entry, in order. -/
def buildMounts (suffix : List Nat) :
    List (List Nat) → Except Abort (List ContainerMount)
  | [] => Except.ok []
  | entry :: rest =>
      if entry = [] then buildMounts suffix rest
      else
        match mountOfEntry suffix entry with
        | Except.error a => Except.error a
        | Except.ok m =>
            match buildMounts suffix rest with
            | Except.error a => Except.error a
            | Except.ok ms => Except.ok (m :: ms)

/-- The body of the label loop for one non-empty entry: split on the first
`'='` into key and value (indexing panics when the entry has no `'='`). -/
def labelOfEntry (entry : List Nat) : Except Abort (List Nat × List Nat) :=
  let pair := splitN2 eqB entry
  match idx pair 0, idx pair 1 with
  | Except.ok k, Except.ok v => Except.ok (k, v)
  | Except.error a, _ => Except.error a
  | _, Except.error a => Except.error a

/-- `labelMap`: the loop over `strings.SplitSeq(*labels, ",")` that skips
empty entries and inserts `pair[0] ↦ pair[1]` into the map. -/
def buildLabels (m : List (List Nat × List Nat)) :
    List (List Nat) → Except Abort (List (List Nat × List Nat))
  | [] => Except.ok m
  | entry :: rest =>
      if entry = [] then buildLabels m rest
      else
        match labelOfEntry entry with
        | Except.error a => Except.error a
        | Except.ok kv => buildLabels (mapInsert m kv.1 kv.2) rest

/-- The flag values handed to `main` by `flag.Parse`. -/
structure Flags where
  name : List Nat
  volume : List Nat
  env : List Nat
  ports : List Nat
  labels : List Nat

/-- The inputs that determine an execution of `main`: the flags, the process
environment (`os.Getenv`; unset variables read as the empty string), and
whether the external `testcontainers.Run` call fails. -/
structure Inp where
  flags : Flags
  getenv : List Nat → List Nat
  runFails : Bool

/-- The configuration handed to `testcontainers.Run`. -/
structure Config where
  ports : List (List Nat)
  environment : List (List Nat × List Nat)
  mounts : List ContainerMount
  labelMap : List (List Nat × List Nat)
  deriving DecidableEq

/-- The configuration-derivation prefix of `main`, in program order: ports,
environment (may `log.Fatalf`), volume suffix and mounts (may panic), labels
(may panic). -/
def makeConfig (inp : Inp) : Except Abort Config :=
  let ep := exposedPorts (splitOn commaB inp.flags.ports)
  match buildEnv inp.getenv [] (splitOn commaB inp.flags.env) with
  | Except.error a => Except.error a
  | Except.ok envm =>
      let suffix := hexSuffix (inp.getenv (asciiBytes "TEST_TARGET"))
      match buildMounts suffix (splitOn commaB inp.flags.volume) with
      | Except.error a => Except.error a
      | Except.ok ms =>
          match buildLabels [] (splitOn commaB inp.flags.labels) with
          | Except.error a => Except.error a
          | Except.ok lm => Except.ok ⟨ep, envm, ms, lm⟩

/-! ### Execution semantics of `main` and the shutdown goroutine

After deriving the configuration, `main` calls `testcontainers.Run`; on
success it spawns a goroutine that blocks on the signal context and then
calls `testcontainers.TerminateContainer`, while `main` itself blocks on the
same context and then waits on the wait group before returning.  We model
this as an interleaving of the two goroutines together with the asynchronous
arrival of a SIGINT/SIGTERM signal, recording the externally observable
events in an append-only trace. -/

/-- Externally observable events of an execution. -/
inductive Ev where
  /-- `signal.NotifyContext` installs the SIGINT/SIGTERM handler. -/
  | registerSig
  /-- The `testcontainers.Run` call (the start-container API). -/
  | startContainer
  /-- A SIGINT or SIGTERM signal is delivered to the process. -/
  | sigReceived
  /-- The `testcontainers.TerminateContainer` call. -/
  | terminate
  /-- `main` returns. -/
  | mainExit
  deriving DecidableEq

/-- Program counter of the `main` goroutine. -/
inductive MPC where
  /-- At entry, about to check the `name` flag. -/
  | start0
  /-- About to derive the configuration. -/
  | cfg
  /-- About to call `testcontainers.Run`. -/
  | run
  /-- `testcontainers.Run` has been called; about to inspect its error. -/
  | postRun
  /-- Blocked on `<-ctx.Done()`. -/
  | waitSig
  /-- Blocked on `wg.Wait()`. -/
  | waitWg
  /-- `main` has returned. -/
  | exited
  /-- `log.Fatal` path: the process exits with an error. -/
  | fatal
  deriving DecidableEq

/-- Program counter of the shutdown goroutine. -/
inductive GPC where
  /-- Not spawned. -/
  | gNone
  /-- Blocked on `<-ctx.Done()`. -/
  | gWait
  /-- Returned (after calling `TerminateContainer`), releasing the wait
  group. -/
  | gDone
  deriving DecidableEq

/-- A global execution state: both program counters, whether a signal has
been received, and the trace of observable events so far. -/
structure St where
  mpc : MPC
  gpc : GPC
  sig : Bool
  trace : List Ev
  deriving DecidableEq

/-- One interleaved execution step of the program, for the fixed inputs
`inp`. -/
inductive Step (inp : Inp) : St → St → Prop
  /-- The `name` flag is non-empty: `signal.NotifyContext` registers the
  handler and `main` proceeds to derive the configuration. -/
  | reg (g sg tr) : inp.flags.name ≠ [] →
      Step inp ⟨MPC.start0, g, sg, tr⟩ ⟨MPC.cfg, g, sg, tr ++ [Ev.registerSig]⟩
  /-- The `name` flag is empty: `log.Fatal` ends the process. -/
  | nameFatal (g sg tr) : inp.flags.name = [] →
      Step inp ⟨MPC.start0, g, sg, tr⟩ ⟨MPC.fatal, g, sg, tr⟩
  /-- Configuration derivation succeeds: `main` proceeds to the `Run` call. -/
  | cfgOk (g sg tr c) : makeConfig inp = Except.ok c →
      Step inp ⟨MPC.cfg, g, sg, tr⟩ ⟨MPC.run, g, sg, tr⟩
  /-- Configuration derivation aborts (`log.Fatalf` or a panic). -/
  | cfgFatal (g sg tr a) : makeConfig inp = Except.error a →
      Step inp ⟨MPC.cfg, g, sg, tr⟩ ⟨MPC.fatal, g, sg, tr⟩
  /-- `main` calls `testcontainers.Run`. -/
  | runCall (g sg tr) :
      Step inp ⟨MPC.run, g, sg, tr⟩ ⟨MPC.postRun, g, sg, tr ++ [Ev.startContainer]⟩
  /-- `Run` returned without error: the shutdown goroutine is spawned and
  `main` blocks on the signal context. -/
  | runOk (sg tr) : inp.runFails = false →
      Step inp ⟨MPC.postRun, GPC.gNone, sg, tr⟩ ⟨MPC.waitSig, GPC.gWait, sg, tr⟩
  /-- `Run` returned an error: `log.Fatalf` ends the process. -/
  | runErr (g sg tr) : inp.runFails = true →
      Step inp ⟨MPC.postRun, g, sg, tr⟩ ⟨MPC.fatal, g, sg, tr⟩
  /-- A SIGINT/SIGTERM arrives (only meaningful once the handler is
  installed); the signal context becomes done. -/
  | signal (m g tr) : Ev.registerSig ∈ tr →
      Step inp ⟨m, g, false, tr⟩ ⟨m, g, true, tr ++ [Ev.sigReceived]⟩
  /-- The shutdown goroutine unblocks from `<-ctx.Done()` and calls
  `testcontainers.TerminateContainer`, then returns. -/
  | goTerm (m tr) :
      Step inp ⟨m, GPC.gWait, true, tr⟩ ⟨m, GPC.gDone, true, tr ++ [Ev.terminate]⟩
  /-- `main` unblocks from `<-ctx.Done()`, calls `stop()` and reaches
  `wg.Wait()`. -/
  | wake (g tr) :
      Step inp ⟨MPC.waitSig, g, true, tr⟩ ⟨MPC.waitWg, g, true, tr⟩
  /-- `wg.Wait()` returns once the shutdown goroutine is done; `main`
  returns. -/
  | exitStep (sg tr) :
      Step inp ⟨MPC.waitWg, GPC.gDone, sg, tr⟩ ⟨MPC.exited, GPC.gDone, sg, tr ++ [Ev.mainExit]⟩

/-- The states reachable from process start. -/
inductive Reachable (inp : Inp) : St → Prop
  | init : Reachable inp ⟨MPC.start0, GPC.gNone, false, []⟩
  | step {s t} : Reachable inp s → Step inp s t → Reachable inp t

/-- `memBefore a b t`: every occurrence of `b` in the trace `t` is strictly
preceded by an occurrence of `a`. -/
def memBefore (a b : Ev) (t : List Ev) : Prop :=
  ∀ t1 t2, t = t1 ++ b :: t2 → a ∈ t1

/-- Decomposing a snoc as an append around a distinguished element: the
element is either the appended one or occurs in the original list. -/
theorem snoc_eq_append_cons {t t1 t2 : List Ev} {e x : Ev}
    (h : t ++ [e] = t1 ++ x :: t2) :
    (t1 = t ∧ x = e ∧ t2 = []) ∨ ∃ t2', t = t1 ++ x :: t2' ∧ t2 = t2' ++ [e] := by
  rcases List.eq_nil_or_concat t2 with rfl | ⟨t2', e', rfl⟩
  · left
    have h' : t ++ [e] = t1 ++ [x] := h
    have := List.append_inj' h' rfl
    exact ⟨this.1.symm, (List.cons.injEq ..▸ this.2).1.symm, rfl⟩
  · right
    have h' : t ++ [e] = (t1 ++ x :: t2') ++ [e'] := by
      simpa using h
    have := List.append_inj' h' rfl
    exact ⟨t2', this.1, by simp [(List.cons.injEq ..▸ this.2).1]⟩

/-- An empty trace satisfies any precedence constraint. -/
theorem memBefore_nil (a b : Ev) : memBefore a b [] := by
  intro t1 t2 h
  exact absurd h (by simp)

/-- Appending an event preserves a precedence constraint, provided that when
the appended event is the constrained one, its guard is already in the
trace. -/
theorem memBefore_snoc {a b : Ev} {t : List Ev} {e : Ev}
    (hmb : memBefore a b t) (hg : e = b → a ∈ t) :
    memBefore a b (t ++ [e]) := by
  intro t1 t2 h
  rcases snoc_eq_append_cons h with ⟨rfl, rfl, rfl⟩ | ⟨t2', ht, _⟩
  · exact hg rfl
  · exact hmb t1 t2' ht

/-- Membership is preserved by appending an event. -/
theorem mem_snoc {x e : Ev} {t : List Ev} (h : x ∈ t) : x ∈ t ++ [e] :=
  List.mem_append.mpr (Or.inl h)

/-- The appended event is in the extended trace. -/
theorem mem_snoc_self (t : List Ev) (e : Ev) : e ∈ t ++ [e] :=
  List.mem_append.mpr (Or.inr (List.mem_singleton.mpr rfl))

/-- Absence is preserved by appending a different event. -/
theorem not_mem_snoc {x e : Ev} {t : List Ev} (h : x ∉ t) (hne : x ≠ e) :
    x ∉ t ++ [e] := by
  simp [List.mem_append, h, hne]

/-- Appending a different event does not change an event's count. -/
theorem count_snoc_other {x e : Ev} {t : List Ev} (hne : ¬ e = x) :
    (t ++ [e]).count x = t.count x := by
  simp [List.count_append, List.count_singleton']
  simp [hne]

/-- The inductive invariant of the execution semantics, tying program
counters, the signal flag and the event trace together. -/
structure MainInv (inp : Inp) (s : St) : Prop where
  /-- Once the signal context is done, the signal delivery is on the trace. -/
  sigMem : s.sig = true → Ev.sigReceived ∈ s.trace
  /-- Past the name check, the handler registration is on the trace. -/
  regMem : s.mpc = MPC.cfg ∨ s.mpc = MPC.run ∨ s.mpc = MPC.postRun ∨
      s.mpc = MPC.waitSig ∨ s.mpc = MPC.waitWg ∨ s.mpc = MPC.exited →
      Ev.registerSig ∈ s.trace
  /-- The shutdown goroutine finishes only after calling terminate. -/
  termMem : s.gpc = GPC.gDone → Ev.terminate ∈ s.trace
  /-- Before the `Run` call point, no start event has happened. -/
  startNotYet : s.mpc = MPC.start0 ∨ s.mpc = MPC.cfg ∨ s.mpc = MPC.run →
      Ev.startContainer ∉ s.trace
  /-- The start-container API is invoked at most once. -/
  startOnce : s.trace.count Ev.startContainer ≤ 1
  /-- When `Run` fails, the goroutine is never spawned, nothing is
  terminated, and `main` never reaches the waiting or exited states. -/
  failInv : inp.runFails = true → s.gpc = GPC.gNone ∧
      Ev.terminate ∉ s.trace ∧ Ev.mainExit ∉ s.trace ∧
      s.mpc ≠ MPC.waitSig ∧ s.mpc ≠ MPC.waitWg ∧ s.mpc ≠ MPC.exited
  /-- When `Run` fails, after the start call `main` is either about to
  inspect the error or already on the fatal path. -/
  failStart : inp.runFails = true → Ev.startContainer ∈ s.trace →
      s.mpc = MPC.postRun ∨ s.mpc = MPC.fatal
  /-- Reaching the `Run` call requires a successfully derived config. -/
  cfgOkInv : s.mpc = MPC.run ∨ s.mpc = MPC.postRun ∨ s.mpc = MPC.waitSig ∨
      s.mpc = MPC.waitWg ∨ s.mpc = MPC.exited →
      ∃ c, makeConfig inp = Except.ok c
  /-- A start event implies a successfully derived config. -/
  startCfg : Ev.startContainer ∈ s.trace → ∃ c, makeConfig inp = Except.ok c
  /-- Terminate is always preceded by a received signal. -/
  sigBeforeTerm : memBefore Ev.sigReceived Ev.terminate s.trace
  /-- Start is always preceded by handler registration. -/
  regBeforeStart : memBefore Ev.registerSig Ev.startContainer s.trace
  /-- Main's return is always preceded by terminate. -/
  termBeforeExit : memBefore Ev.terminate Ev.mainExit s.trace
  /-- Main returns only once the shutdown goroutine is done. -/
  exitDone : s.mpc = MPC.exited → s.gpc = GPC.gDone

/-- Removing a snoc of a different event preserves membership. -/
theorem mem_of_snoc_ne {x e : Ev} {t : List Ev} (h : x ∈ t ++ [e])
    (hne : x ≠ e) : x ∈ t := by
  rcases List.mem_append.mp h with h' | h'
  · exact h'
  · exact absurd (List.mem_singleton.mp h') hne

/-- The invariant is preserved by every execution step. -/
theorem maininv_step {inp : Inp} {s t : St} (hI : MainInv inp s)
    (hst : Step inp s t) : MainInv inp t := by
  cases hst with
  | reg g sg tr hname =>
      exact {
        sigMem := fun h => mem_snoc (hI.sigMem h)
        regMem := fun _ => mem_snoc_self tr _
        termMem := fun h => mem_snoc (hI.termMem h)
        startNotYet := fun _ => not_mem_snoc (hI.startNotYet (Or.inl rfl)) (by decide)
        startOnce := by rw [count_snoc_other (by decide)]; exact hI.startOnce
        failInv := fun h =>
          let o := hI.failInv h
          ⟨o.1, not_mem_snoc o.2.1 (by decide), not_mem_snoc o.2.2.1 (by decide),
           nofun, nofun, nofun⟩
        failStart := fun h hs => absurd (mem_of_snoc_ne hs (by decide)) (hI.startNotYet (Or.inl rfl))
        cfgOkInv := nofun
        startCfg := fun h => hI.startCfg (mem_of_snoc_ne h (by decide))
        sigBeforeTerm := memBefore_snoc hI.sigBeforeTerm nofun
        regBeforeStart := memBefore_snoc hI.regBeforeStart nofun
        termBeforeExit := memBefore_snoc hI.termBeforeExit nofun
        exitDone := nofun }
  | nameFatal g sg tr hname =>
      exact {
        sigMem := hI.sigMem
        regMem := nofun
        termMem := hI.termMem
        startNotYet := fun _ => hI.startNotYet (Or.inl rfl)
        startOnce := hI.startOnce
        failInv := fun h =>
          let o := hI.failInv h
          ⟨o.1, o.2.1, o.2.2.1, nofun, nofun, nofun⟩
        failStart := fun _ hs => absurd hs (hI.startNotYet (Or.inl rfl))
        cfgOkInv := nofun
        startCfg := hI.startCfg
        sigBeforeTerm := hI.sigBeforeTerm
        regBeforeStart := hI.regBeforeStart
        termBeforeExit := hI.termBeforeExit
        exitDone := nofun }
  | cfgOk g sg tr c hcfg =>
      exact {
        sigMem := hI.sigMem
        regMem := fun _ => hI.regMem (Or.inl rfl)
        termMem := hI.termMem
        startNotYet := fun _ => hI.startNotYet (Or.inr (Or.inl rfl))
        startOnce := hI.startOnce
        failInv := fun h =>
          let o := hI.failInv h
          ⟨o.1, o.2.1, o.2.2.1, nofun, nofun, nofun⟩
        failStart := fun _ hs => absurd hs (hI.startNotYet (Or.inr (Or.inl rfl)))
        cfgOkInv := fun _ => ⟨c, hcfg⟩
        startCfg := hI.startCfg
        sigBeforeTerm := hI.sigBeforeTerm
        regBeforeStart := hI.regBeforeStart
        termBeforeExit := hI.termBeforeExit
        exitDone := nofun }
  | cfgFatal g sg tr a hcfg =>
      exact {
        sigMem := hI.sigMem
        regMem := nofun
        termMem := hI.termMem
        startNotYet := fun _ => hI.startNotYet (Or.inr (Or.inl rfl))
        startOnce := hI.startOnce
        failInv := fun h =>
          let o := hI.failInv h
          ⟨o.1, o.2.1, o.2.2.1, nofun, nofun, nofun⟩
        failStart := fun _ hs => absurd hs (hI.startNotYet (Or.inr (Or.inl rfl)))
        cfgOkInv := nofun
        startCfg := hI.startCfg
        sigBeforeTerm := hI.sigBeforeTerm
        regBeforeStart := hI.regBeforeStart
        termBeforeExit := hI.termBeforeExit
        exitDone := nofun }
  | runCall g sg tr =>
      exact {
        sigMem := fun h => mem_snoc (hI.sigMem h)
        regMem := fun _ => mem_snoc (hI.regMem (Or.inr (Or.inl rfl)))
        termMem := fun h => mem_snoc (hI.termMem h)
        startNotYet := nofun
        startOnce := by
          have h0 : tr.count Ev.startContainer = 0 :=
            List.count_eq_zero.mpr (hI.startNotYet (Or.inr (Or.inr rfl)))
          rw [List.count_append, h0, List.count_singleton']
          simp
        failInv := fun h =>
          let o := hI.failInv h
          ⟨o.1, not_mem_snoc o.2.1 (by decide), not_mem_snoc o.2.2.1 (by decide),
           nofun, nofun, nofun⟩
        failStart := fun _ _ => Or.inl rfl
        cfgOkInv := fun _ => hI.cfgOkInv (Or.inl rfl)
        startCfg := fun _ => hI.cfgOkInv (Or.inl rfl)
        sigBeforeTerm := memBefore_snoc hI.sigBeforeTerm nofun
        regBeforeStart := memBefore_snoc hI.regBeforeStart
          (fun _ => hI.regMem (Or.inr (Or.inl rfl)))
        termBeforeExit := memBefore_snoc hI.termBeforeExit nofun
        exitDone := nofun }
  | runOk sg tr hrf =>
      exact {
        sigMem := hI.sigMem
        regMem := fun _ => hI.regMem (Or.inr (Or.inr (Or.inl rfl)))
        termMem := nofun
        startNotYet := nofun
        startOnce := hI.startOnce
        failInv := fun h => absurd (hrf.symm.trans h) (by decide)
        failStart := fun h => nomatch (hrf.symm.trans h)
        cfgOkInv := fun _ => hI.cfgOkInv (Or.inr (Or.inl rfl))
        startCfg := hI.startCfg
        sigBeforeTerm := hI.sigBeforeTerm
        regBeforeStart := hI.regBeforeStart
        termBeforeExit := hI.termBeforeExit
        exitDone := nofun }
  | runErr g sg tr hrf =>
      exact {
        sigMem := hI.sigMem
        regMem := nofun
        termMem := hI.termMem
        startNotYet := nofun
        startOnce := hI.startOnce
        failInv := fun h =>
          let o := hI.failInv h
          ⟨o.1, o.2.1, o.2.2.1, nofun, nofun, nofun⟩
        failStart := fun _ _ => Or.inr rfl
        cfgOkInv := nofun
        startCfg := hI.startCfg
        sigBeforeTerm := hI.sigBeforeTerm
        regBeforeStart := hI.regBeforeStart
        termBeforeExit := hI.termBeforeExit
        exitDone := nofun }
  | signal m g tr hreg =>
      exact {
        sigMem := fun _ => mem_snoc_self tr _
        regMem := fun h => mem_snoc (hI.regMem h)
        termMem := fun h => mem_snoc (hI.termMem h)
        startNotYet := fun h => not_mem_snoc (hI.startNotYet h) (by decide)
        startOnce := by rw [count_snoc_other (by decide)]; exact hI.startOnce
        failInv := fun h =>
          let o := hI.failInv h
          ⟨o.1, not_mem_snoc o.2.1 (by decide), not_mem_snoc o.2.2.1 (by decide),
           o.2.2.2.1, o.2.2.2.2.1, o.2.2.2.2.2⟩
        failStart := fun h hs => hI.failStart h (mem_of_snoc_ne hs (by decide))
        cfgOkInv := hI.cfgOkInv
        startCfg := fun h => hI.startCfg (mem_of_snoc_ne h (by decide))
        sigBeforeTerm := memBefore_snoc hI.sigBeforeTerm nofun
        regBeforeStart := memBefore_snoc hI.regBeforeStart nofun
        termBeforeExit := memBefore_snoc hI.termBeforeExit nofun
        exitDone := hI.exitDone }
  | goTerm m tr =>
      exact {
        sigMem := fun _ => mem_snoc (hI.sigMem rfl)
        regMem := fun h => mem_snoc (hI.regMem h)
        termMem := fun _ => mem_snoc_self tr _
        startNotYet := fun h => not_mem_snoc (hI.startNotYet h) (by decide)
        startOnce := by rw [count_snoc_other (by decide)]; exact hI.startOnce
        failInv := fun h => nomatch (hI.failInv h).1
        failStart := fun h => nomatch (hI.failInv h).1
        cfgOkInv := hI.cfgOkInv
        startCfg := fun h => hI.startCfg (mem_of_snoc_ne h (by decide))
        sigBeforeTerm := memBefore_snoc hI.sigBeforeTerm (fun _ => hI.sigMem rfl)
        regBeforeStart := memBefore_snoc hI.regBeforeStart nofun
        termBeforeExit := memBefore_snoc hI.termBeforeExit nofun
        exitDone := fun _ => rfl }
  | wake g tr =>
      exact {
        sigMem := hI.sigMem
        regMem := fun _ => hI.regMem (Or.inr (Or.inr (Or.inr (Or.inl rfl))))
        termMem := hI.termMem
        startNotYet := nofun
        startOnce := hI.startOnce
        failInv := fun h => absurd rfl (hI.failInv h).2.2.2.1
        failStart := fun h => absurd rfl (hI.failInv h).2.2.2.1
        cfgOkInv := fun _ => hI.cfgOkInv (Or.inr (Or.inr (Or.inl rfl)))
        startCfg := hI.startCfg
        sigBeforeTerm := hI.sigBeforeTerm
        regBeforeStart := hI.regBeforeStart
        termBeforeExit := hI.termBeforeExit
        exitDone := nofun }
  | exitStep sg tr =>
      exact {
        sigMem := fun h => mem_snoc (hI.sigMem h)
        regMem := fun _ =>
          mem_snoc (hI.regMem (Or.inr (Or.inr (Or.inr (Or.inr (Or.inl rfl))))))
        termMem := fun _ => mem_snoc (hI.termMem rfl)
        startNotYet := nofun
        startOnce := by rw [count_snoc_other (by decide)]; exact hI.startOnce
        failInv := fun h => absurd rfl (hI.failInv h).2.2.2.2.1
        failStart := fun h => absurd rfl (hI.failInv h).2.2.2.2.1
        cfgOkInv := fun _ => hI.cfgOkInv (Or.inr (Or.inr (Or.inr (Or.inl rfl))))
        startCfg := fun h => hI.startCfg (mem_of_snoc_ne h (by decide))
        sigBeforeTerm := memBefore_snoc hI.sigBeforeTerm nofun
        regBeforeStart := memBefore_snoc hI.regBeforeStart nofun
        termBeforeExit := memBefore_snoc hI.termBeforeExit (fun _ => hI.termMem rfl)
        exitDone := fun _ => rfl }

/-- Every reachable state satisfies the invariant. -/
theorem reachable_maininv {inp : Inp} {s : St} (h : Reachable inp s) :
    MainInv inp s := by
  induction h with
  | init =>
      exact {
        sigMem := nofun
        regMem := nofun
        termMem := nofun
        startNotYet := fun _ => List.not_mem_nil _
        startOnce := by simp
        failInv := fun _ => ⟨rfl, List.not_mem_nil _, List.not_mem_nil _,
          nofun, nofun, nofun⟩
        failStart := fun _ hs => absurd hs (List.not_mem_nil _)
        cfgOkInv := nofun
        startCfg := fun h => absurd h (List.not_mem_nil _)
        sigBeforeTerm := memBefore_nil _ _
        regBeforeStart := memBefore_nil _ _
        termBeforeExit := memBefore_nil _ _
        exitDone := nofun }
  | step _ hst ih => exact maininv_step ih hst

/-! ### Properties of the flag-derivation functions -/

/-- `SplitN(s, sep, 2)` on a separator-free string yields the single piece. -/
theorem splitN2_no_sep {sep : Nat} {s : List Nat} (h : sep ∉ s) :
    splitN2 sep s = [s] := by
  induction s with
  | nil => rfl
  | cons b rest ih =>
      have hb : ¬ b = sep := fun he => h (he ▸ List.mem_cons_self b rest)
      have hr : sep ∉ rest := fun hm => h (List.mem_cons_of_mem _ hm)
      simp [splitN2, hb, ih hr]

/-- `SplitN(s, sep, 2)` splits at the first separator. -/
theorem splitN2_append {sep : Nat} {n p : List Nat} (h : sep ∉ n) :
    splitN2 sep (n ++ sep :: p) = [n, p] := by
  induction n with
  | nil => simp [splitN2]
  | cons b rest ih =>
      have hb : ¬ b = sep := fun he => h (he ▸ List.mem_cons_self b rest)
      have hr : sep ∉ rest := fun hm => h (List.mem_cons_of_mem _ hm)
      simp [splitN2, hb, ih hr]

/-- Out-of-range indexing fails only with the panic abort. -/
theorem idx_err {l : List (List Nat)} {i : Nat} {a : Abort}
    (h : idx l i = Except.error a) : a = Abort.panicIndexOutOfRange := by
  unfold idx at h
  cases hg : l.get? i <;> rw [hg] at h <;> simp_all

/-- A volume entry of the form `name ++ ":" ++ path` (no colon in the name)
derives the mount with the built volume name as source and the path as
target. -/
theorem mountOfEntry_split {suffix n p : List Nat} (hn : colonB ∉ n) :
    mountOfEntry suffix (n ++ colonB :: p) = Except.ok ⟨volName suffix n, p⟩ := by
  simp [mountOfEntry, splitN2_append hn, idx]

/-- A colon-free volume entry makes the derivation panic on `parts[1]`. -/
theorem mountOfEntry_no_colon {suffix e : List Nat} (h : colonB ∉ e) :
    mountOfEntry suffix e = Except.error Abort.panicIndexOutOfRange := by
  simp [mountOfEntry, splitN2_no_sep h, idx]

/-- The volume-entry derivation fails only with the panic abort. -/
theorem mountOfEntry_err {suffix e : List Nat} {a : Abort}
    (h : mountOfEntry suffix e = Except.error a) :
    a = Abort.panicIndexOutOfRange := by
  simp only [mountOfEntry] at h
  cases h0 : idx (splitN2 colonB e) 0 with
  | error a0 => rw [h0] at h; simp at h; exact h ▸ idx_err h0
  | ok p0 =>
      cases h1 : idx (splitN2 colonB e) 1 with
      | error a1 => rw [h0, h1] at h; simp at h; exact h ▸ idx_err h1
      | ok p1 => rw [h0, h1] at h; simp at h

/-- The volume-mount loop fails only with the panic abort. -/
theorem buildMounts_err {suffix : List Nat} {l : List (List Nat)} {a : Abort}
    (h : buildMounts suffix l = Except.error a) :
    a = Abort.panicIndexOutOfRange := by
  induction l generalizing a with
  | nil => simp [buildMounts] at h
  | cons e rest ih =>
      by_cases he : e = []
      · simp only [buildMounts, if_pos he] at h
        exact ih h
      · simp only [buildMounts, if_neg he] at h
        cases hm : mountOfEntry suffix e with
        | error a0 => rw [hm] at h; simp at h; exact h ▸ mountOfEntry_err hm
        | ok m =>
            rw [hm] at h
            cases hr : buildMounts suffix rest with
            | error a1 => rw [hr] at h; simp at h; exact h ▸ ih hr
            | ok ms => rw [hr] at h; simp at h

/-- When the volume-mount loop succeeds, every non-empty entry derived a
mount. -/
theorem buildMounts_ok_all {suffix : List Nat} {l : List (List Nat)}
    {ms : List ContainerMount} (h : buildMounts suffix l = Except.ok ms)
    {e : List Nat} (he : e ∈ l) (hne : e ≠ []) :
    ∃ m, mountOfEntry suffix e = Except.ok m := by
  induction l generalizing ms with
  | nil => cases he
  | cons x rest ih =>
      by_cases hx : x = []
      · simp only [buildMounts, if_pos hx] at h
        rcases List.mem_cons.mp he with rfl | hmem
        · exact absurd hx hne
        · exact ih h hmem
      · simp only [buildMounts, if_neg hx] at h
        cases hm : mountOfEntry suffix x with
        | error a => rw [hm] at h; cases h
        | ok m =>
            rw [hm] at h
            cases hr : buildMounts suffix rest with
            | error a => rw [hr] at h; cases h
            | ok ms' =>
                rw [hr] at h
                rcases List.mem_cons.mp he with rfl | hmem
                · exact ⟨m, hm⟩
                · exact ih hr hmem

/-- When the volume-mount loop succeeds, the mount derived from any
non-empty entry appears in the result. -/
theorem buildMounts_ok_mem {suffix : List Nat} {l : List (List Nat)}
    {ms : List ContainerMount} (h : buildMounts suffix l = Except.ok ms)
    {e : List Nat} {m : ContainerMount} (he : e ∈ l) (hne : e ≠ [])
    (hm : mountOfEntry suffix e = Except.ok m) : m ∈ ms := by
  induction l generalizing ms with
  | nil => cases he
  | cons x rest ih =>
      by_cases hx : x = []
      · simp only [buildMounts, if_pos hx] at h
        rcases List.mem_cons.mp he with rfl | hmem
        · exact absurd hx hne
        · exact ih h hmem
      · simp only [buildMounts, if_neg hx] at h
        cases hmx : mountOfEntry suffix x with
        | error a => rw [hmx] at h; cases h
        | ok mx =>
            rw [hmx] at h
            cases hr : buildMounts suffix rest with
            | error a => rw [hr] at h; cases h
            | ok ms' =>
                rw [hr] at h
                simp only [Except.ok.injEq] at h
                subst h
                rcases List.mem_cons.mp he with rfl | hmem
                · rw [hm] at hmx
                  simp only [Except.ok.injEq] at hmx
                  exact hmx ▸ List.mem_cons_self _ _
                · exact List.mem_cons_of_mem _ (ih hr hmem)

/-- An equals-free label entry makes the derivation panic on `pair[1]`. -/
theorem labelOfEntry_no_eq {e : List Nat} (h : eqB ∉ e) :
    labelOfEntry e = Except.error Abort.panicIndexOutOfRange := by
  simp [labelOfEntry, splitN2_no_sep h, idx]

/-- The label-entry derivation fails only with the panic abort. -/
theorem labelOfEntry_err {e : List Nat} {a : Abort}
    (h : labelOfEntry e = Except.error a) :
    a = Abort.panicIndexOutOfRange := by
  simp only [labelOfEntry] at h
  cases h0 : idx (splitN2 eqB e) 0 with
  | error a0 => rw [h0] at h; simp at h; exact h ▸ idx_err h0
  | ok k =>
      cases h1 : idx (splitN2 eqB e) 1 with
      | error a1 => rw [h0, h1] at h; simp at h; exact h ▸ idx_err h1
      | ok v => rw [h0, h1] at h; simp at h

/-- The label loop fails only with the panic abort. -/
theorem buildLabels_err {l : List (List Nat)} :
    ∀ {m : List (List Nat × List Nat)} {a : Abort},
    buildLabels m l = Except.error a → a = Abort.panicIndexOutOfRange := by
  induction l with
  | nil => intro m a h; simp [buildLabels] at h
  | cons e rest ih =>
      intro m a h
      by_cases he : e = []
      · simp only [buildLabels, if_pos he] at h
        exact ih h
      · simp only [buildLabels, if_neg he] at h
        cases hm : labelOfEntry e with
        | error a0 => rw [hm] at h; simp at h; exact h ▸ labelOfEntry_err hm
        | ok kv => rw [hm] at h; exact ih h

/-- When the label loop succeeds, every non-empty entry derived a pair. -/
theorem buildLabels_ok_all {l : List (List Nat)} :
    ∀ {m : List (List Nat × List Nat)} {M : List (List Nat × List Nat)},
    buildLabels m l = Except.ok M →
    ∀ {e : List Nat}, e ∈ l → e ≠ [] → ∃ kv, labelOfEntry e = Except.ok kv := by
  induction l with
  | nil => intro m M h e he; cases he
  | cons x rest ih =>
      intro m M h e he hne
      by_cases hx : x = []
      · simp only [buildLabels, if_pos hx] at h
        rcases List.mem_cons.mp he with rfl | hmem
        · exact absurd hx hne
        · exact ih h hmem hne
      · simp only [buildLabels, if_neg hx] at h
        cases hm : labelOfEntry x with
        | error a => rw [hm] at h; cases h
        | ok kv =>
            rw [hm] at h
            rcases List.mem_cons.mp he with rfl | hmem
            · exact ⟨kv, hm⟩
            · exact ih h hmem hne

/-- When a listed variable is non-empty in the list but empty in the process
environment, the environment loop reaches `log.Fatalf`. -/
theorem buildEnv_err {getenv : List Nat → List Nat} {k : List Nat}
    (hv : getenv k = []) (hne : k ≠ []) :
    ∀ {segs : List (List Nat)}, k ∈ segs →
    ∀ m, ∃ a, buildEnv getenv m segs = Except.error a := by
  intro segs
  induction segs with
  | nil => intro h; cases h
  | cons x rest ih =>
      intro he m
      by_cases hx : x = []
      · rcases List.mem_cons.mp he with rfl | hmem
        · exact absurd hx hne
        · simp only [buildEnv, if_pos hx]
          exact ih hmem m
      · by_cases hgx : getenv x = []
        · exact ⟨Abort.fatalMissingEnv x, by simp [buildEnv, hx, hgx]⟩
        · simp only [buildEnv, if_neg hx, if_neg hgx]
          rcases List.mem_cons.mp he with rfl | hmem
          · exact absurd hv hgx
          · exact ih hmem _

/-- Members of a map after insertion: either an original member or the new
binding. -/
theorem mapInsert_mem_src {m : List (List Nat × List Nat)}
    {k v : List Nat} {kv : List Nat × List Nat}
    (h : kv ∈ mapInsert m k v) : kv ∈ m ∨ kv = (k, v) := by
  unfold mapInsert at h
  by_cases hc : m.any (fun kv => decide (kv.1 = k))
  · rw [if_pos hc] at h
    rcases List.mem_map.mp h with ⟨orig, horig, heq⟩
    by_cases ho : orig.1 = k
    · rw [if_pos ho] at heq
      exact Or.inr heq.symm
    · rw [if_neg ho] at heq
      exact Or.inl (heq ▸ horig)
  · rw [if_neg hc] at h
    rcases List.mem_append.mp h with h' | h'
    · exact Or.inl h'
    · exact Or.inr (List.mem_singleton.mp h')

/-- The inserted binding is a member of the map after insertion. -/
theorem mapInsert_mem_new (m : List (List Nat × List Nat)) (k v : List Nat) :
    (k, v) ∈ mapInsert m k v := by
  unfold mapInsert
  by_cases hc : m.any (fun kv => decide (kv.1 = k))
  · rw [if_pos hc]
    rcases List.any_eq_true.mp hc with ⟨orig, horig, hd⟩
    have ho : orig.1 = k := of_decide_eq_true hd
    exact List.mem_map.mpr ⟨orig, horig, by rw [if_pos ho]⟩
  · rw [if_neg hc]
    exact List.mem_append.mpr (Or.inr (List.mem_singleton.mpr rfl))

/-- Insertion never removes a key from the map. -/
theorem mapInsert_dom_keep {m : List (List Nat × List Nat)}
    {k v : List Nat} {kv : List Nat × List Nat} (h : kv ∈ m) :
    ∃ v', (kv.1, v') ∈ mapInsert m k v := by
  by_cases ho : kv.1 = k
  · exact ⟨v, ho ▸ mapInsert_mem_new m k v⟩
  · unfold mapInsert
    by_cases hc : m.any (fun kv => decide (kv.1 = k))
    · rw [if_pos hc]
      exact ⟨kv.2, List.mem_map.mpr ⟨kv, h, by rw [if_neg ho]⟩⟩
    · rw [if_neg hc]
      exact ⟨kv.2, List.mem_append.mpr (Or.inl h)⟩

/-- Values invariant of the environment loop: every binding in the result
maps a name to its process-environment value, provided the accumulator
does. -/
theorem buildEnv_values {getenv : List Nat → List Nat} :
    ∀ {segs : List (List Nat)} {m M : List (List Nat × List Nat)},
    buildEnv getenv m segs = Except.ok M →
    (∀ kv ∈ m, kv.2 = getenv kv.1) → ∀ kv ∈ M, kv.2 = getenv kv.1 := by
  intro segs
  induction segs with
  | nil =>
      intro m M h hm
      simp only [buildEnv, Except.ok.injEq] at h
      exact h ▸ hm
  | cons x rest ih =>
      intro m M h hm
      by_cases hx : x = []
      · simp only [buildEnv, if_pos hx] at h
        exact ih h hm
      · by_cases hgx : getenv x = []
        · simp [buildEnv, hx, hgx] at h
        · simp only [buildEnv, if_neg hx, if_neg hgx] at h
          refine ih h ?_
          intro kv hkv
          rcases mapInsert_mem_src hkv with h' | h'
          · exact hm kv h'
          · rw [h']

/-- Domain upper bound of the environment loop: every key in the result was
in the accumulator or is a non-empty listed name. -/
theorem buildEnv_dom_sub {getenv : List Nat → List Nat} :
    ∀ {segs : List (List Nat)} {m M : List (List Nat × List Nat)},
    buildEnv getenv m segs = Except.ok M →
    ∀ kv ∈ M, (∃ v', (kv.1, v') ∈ m) ∨ (kv.1 ∈ segs ∧ kv.1 ≠ []) := by
  intro segs
  induction segs with
  | nil =>
      intro m M h kv hkv
      simp only [buildEnv, Except.ok.injEq] at h
      exact Or.inl ⟨kv.2, h ▸ hkv⟩
  | cons x rest ih =>
      intro m M h kv hkv
      by_cases hx : x = []
      · simp only [buildEnv, if_pos hx] at h
        rcases ih h kv hkv with h' | h'
        · exact Or.inl h'
        · exact Or.inr ⟨List.mem_cons_of_mem _ h'.1, h'.2⟩
      · by_cases hgx : getenv x = []
        · simp [buildEnv, hx, hgx] at h
        · simp only [buildEnv, if_neg hx, if_neg hgx] at h
          rcases ih h kv hkv with ⟨v', hv'⟩ | h'
          · rcases mapInsert_mem_src hv' with h'' | h''
            · exact Or.inl ⟨v', h''⟩
            · refine Or.inr ⟨?_, ?_⟩
              · have : kv.1 = x := congrArg Prod.fst h''
                exact this ▸ List.mem_cons_self x rest
              · have : kv.1 = x := congrArg Prod.fst h''
                exact this ▸ hx
          · exact Or.inr ⟨List.mem_cons_of_mem _ h'.1, h'.2⟩

/-- The environment loop never drops a key already present. -/
theorem buildEnv_dom_keep {getenv : List Nat → List Nat} :
    ∀ {segs : List (List Nat)} {m M : List (List Nat × List Nat)},
    buildEnv getenv m segs = Except.ok M →
    ∀ kv ∈ m, ∃ v, (kv.1, v) ∈ M := by
  intro segs
  induction segs with
  | nil =>
      intro m M h kv hkv
      simp only [buildEnv, Except.ok.injEq] at h
      exact ⟨kv.2, h ▸ hkv⟩
  | cons x rest ih =>
      intro m M h kv hkv
      by_cases hx : x = []
      · simp only [buildEnv, if_pos hx] at h
        exact ih h kv hkv
      · by_cases hgx : getenv x = []
        · simp [buildEnv, hx, hgx] at h
        · simp only [buildEnv, if_neg hx, if_neg hgx] at h
          rcases mapInsert_dom_keep (k := x) (v := getenv x) hkv with ⟨v', hv'⟩
          exact ih h (kv.1, v') hv'

/-- Domain lower bound of the environment loop: every non-empty listed name
ends up bound in the result. -/
theorem buildEnv_dom_sup {getenv : List Nat → List Nat} :
    ∀ {segs : List (List Nat)} {m M : List (List Nat × List Nat)},
    buildEnv getenv m segs = Except.ok M →
    ∀ {k : List Nat}, k ∈ segs → k ≠ [] → ∃ v, (k, v) ∈ M := by
  intro segs
  induction segs with
  | nil => intro m M h k hk; cases hk
  | cons x rest ih =>
      intro m M h k hk hne
      by_cases hx : x = []
      · simp only [buildEnv, if_pos hx] at h
        rcases List.mem_cons.mp hk with rfl | hmem
        · exact absurd hx hne
        · exact ih h hmem hne
      · by_cases hgx : getenv x = []
        · simp [buildEnv, hx, hgx] at h
        · simp only [buildEnv, if_neg hx, if_neg hgx] at h
          rcases List.mem_cons.mp hk with rfl | hmem
          · exact buildEnv_dom_keep h (k, getenv k) (mapInsert_mem_new m k (getenv k))
          · exact ih h hmem hne

/-- A successful lookup returns a binding of the map. -/
theorem lookupA_mem {k : List Nat} :
    ∀ {m : List (List Nat × List Nat)} {v : List Nat},
    lookupA k m = some v → (k, v) ∈ m := by
  intro m
  induction m with
  | nil => intro v h; cases h
  | cons kv rest ih =>
      intro v h
      unfold lookupA at h
      by_cases hc : kv.1 = k
      · rw [if_pos hc] at h
        simp only [Option.some.injEq] at h
        exact List.mem_cons.mpr (Or.inl (by rw [← hc, ← h]))
      · rw [if_neg hc] at h
        exact List.mem_cons_of_mem _ (ih h)

/-- A bound key looks up successfully. -/
theorem lookupA_isSome {k : List Nat} :
    ∀ {m : List (List Nat × List Nat)}, (∃ v, (k, v) ∈ m) →
    ∃ v', lookupA k m = some v' := by
  intro m
  induction m with
  | nil => intro h; rcases h with ⟨v, hv⟩; cases hv
  | cons kv rest ih =>
      intro h
      by_cases hc : kv.1 = k
      · exact ⟨kv.2, by simp [lookupA, hc]⟩
      · rcases h with ⟨v, hv⟩
        rcases List.mem_cons.mp hv with h' | h'
        · exact absurd (congrArg Prod.fst h'.symm) hc
        · rcases ih ⟨v, h'⟩ with ⟨v', hv'⟩
          exact ⟨v', by simp [lookupA, hc, hv']⟩

/-- `bytesBE` produces exactly the requested number of bytes. -/
theorem bytesBE_length (k : Nat) : ∀ v, (bytesBE k v).length = k := by
  induction k with
  | zero => intro v; rfl
  | succ k ih => intro v; simp [bytesBE, ih]

/-- A SHA-256 digest always has 32 bytes. -/
theorem sha256_length (msg : List Nat) : (sha256 msg).length = 32 := by
  simp [sha256, List.flatMap_cons, List.flatMap_nil, bytesBE_length]

/-- A SHA-256 digest is never empty. -/
theorem sha256_ne_nil (msg : List Nat) : sha256 msg ≠ [] := by
  intro h
  have := sha256_length msg
  rw [h] at this
  cases this

/-- Hex encoding of a non-empty byte list is non-empty. -/
theorem hexEncode_ne_nil {l : List Nat} (h : l ≠ []) : hexEncode l ≠ [] := by
  cases l with
  | nil => exact absurd rfl h
  | cons b rest => simp [hexEncode]

/-- The volume-name suffix is non-empty exactly when `TEST_TARGET` is. -/
theorem hexSuffix_ne_nil {t : List Nat} (h : t ≠ []) : hexSuffix t ≠ [] := by
  simp only [hexSuffix, if_neg h]
  exact hexEncode_ne_nil (sha256_ne_nil t)

/-- An aborting environment derivation makes the whole configuration
derivation abort (the `log.Fatalf` happens before the `Run` call). -/
theorem makeConfig_err_env {inp : Inp} {a : Abort}
    (h : buildEnv inp.getenv [] (splitOn commaB inp.flags.env) = Except.error a) :
    makeConfig inp = Except.error a := by
  simp [makeConfig, h]

/-- A successful configuration derivation determines each component from the
corresponding flag. -/
theorem makeConfig_ok_parts {inp : Inp} {c : Config}
    (h : makeConfig inp = Except.ok c) :
    c.ports = exposedPorts (splitOn commaB inp.flags.ports) ∧
    buildEnv inp.getenv [] (splitOn commaB inp.flags.env) =
      Except.ok c.environment ∧
    buildMounts (hexSuffix (inp.getenv (asciiBytes "TEST_TARGET")))
      (splitOn commaB inp.flags.volume) = Except.ok c.mounts ∧
    buildLabels [] (splitOn commaB inp.flags.labels) = Except.ok c.labelMap := by
  simp only [makeConfig] at h
  cases he : buildEnv inp.getenv [] (splitOn commaB inp.flags.env) with
  | error a => rw [he] at h; cases h
  | ok envm =>
      rw [he] at h
      simp only [] at h
      cases hm : buildMounts (hexSuffix (inp.getenv (asciiBytes "TEST_TARGET")))
          (splitOn commaB inp.flags.volume) with
      | error a => rw [hm] at h; cases h
      | ok ms =>
          rw [hm] at h
          simp only [] at h
          cases hl : buildLabels [] (splitOn commaB inp.flags.labels) with
          | error a => rw [hl] at h; cases h
          | ok lm =>
              rw [hl] at h
              simp only [Except.ok.injEq] at h
              subst h
              exact ⟨rfl, rfl, rfl, rfl⟩

/-! ### Concrete executions used as witnesses -/

/-- A minimal input: container name `img`, all other flags empty, empty
process environment, successful `Run`. -/
def inpBase : Inp :=
  ⟨⟨asciiBytes "img", [], [], [], []⟩, fun _ => [], false⟩

/-- Like `inpBase` but the `testcontainers.Run` call fails. -/
def inpFail : Inp :=
  ⟨⟨asciiBytes "img", [], [], [], []⟩, fun _ => [], true⟩

/-- Like `inpBase` but with `FOO` on the env passthrough list while unset in
the process environment. -/
def inpEnvMiss : Inp :=
  ⟨⟨asciiBytes "img", [], asciiBytes "FOO", [], []⟩, fun _ => [], false⟩

/-- A volume flag `data:/var/lib` with `TEST_TARGET=abc` in the process
environment. -/
def inpC1 : Inp :=
  ⟨⟨asciiBytes "img", asciiBytes "data:/var/lib", [], [], []⟩,
   fun k => if k = asciiBytes "TEST_TARGET" then asciiBytes "abc" else [],
   false⟩

/-- The configuration derived from `inpC1`. -/
def cfgC1 : Config :=
  ⟨[], [],
   [⟨asciiBytes
       "bazel-itest-data-ba7816bf8f01cfea414140de5dae2223b00361a396177a9cb410ff61f20015ad",
     asciiBytes "/var/lib"⟩],
   []⟩

/-- An env passthrough list `FOO,BAR` with both variables set. -/
def inpC5 : Inp :=
  ⟨⟨asciiBytes "img", [], asciiBytes "FOO,BAR", [], []⟩,
   fun k =>
     if k = asciiBytes "FOO" then asciiBytes "fooval"
     else if k = asciiBytes "BAR" then asciiBytes "barval" else [],
   false⟩

/-- The configuration derived from `inpC5`. -/
def cfgC5 : Config :=
  ⟨[],
   [(asciiBytes "FOO", asciiBytes "fooval"),
    (asciiBytes "BAR", asciiBytes "barval")],
   [], []⟩

/-- The execution prefix of `inpBase` up to the `Run` call. -/
theorem reach_mid :
    Reachable inpBase
      ⟨MPC.postRun, GPC.gNone, false, [Ev.registerSig, Ev.startContainer]⟩ := by
  have h0 : Reachable inpBase ⟨MPC.start0, GPC.gNone, false, []⟩ :=
    Reachable.init
  have h1 := h0.step (Step.reg _ _ _ (by decide))
  have h2 := h1.step (Step.cfgOk _ _ _ ⟨[], [], [], []⟩ rfl)
  have h3 := h2.step (Step.runCall _ _ _)
  exact h3

/-- A complete execution of `inpBase`: start, signal, terminate, exit. -/
theorem reach_full :
    Reachable inpBase
      ⟨MPC.exited, GPC.gDone, true,
       [Ev.registerSig, Ev.startContainer, Ev.sigReceived, Ev.terminate,
        Ev.mainExit]⟩ := by
  have h3 := reach_mid
  have h4 := h3.step (Step.runOk _ _ rfl)
  have h5 := h4.step (Step.signal _ _ _ (by decide))
  have h6 := h5.step (Step.goTerm _ _)
  have h7 := h6.step (Step.wake _ _)
  have h8 := h7.step (Step.exitStep _ _)
  exact h8

/-- A complete execution of `inpFail`: the `Run` call fails and the process
dies fatally. -/
theorem reach_fail :
    Reachable inpFail
      ⟨MPC.fatal, GPC.gNone, false, [Ev.registerSig, Ev.startContainer]⟩ := by
  have h0 : Reachable inpFail ⟨MPC.start0, GPC.gNone, false, []⟩ :=
    Reachable.init
  have h1 := h0.step (Step.reg _ _ _ (by decide))
  have h2 := h1.step (Step.cfgOk _ _ _ ⟨[], [], [], []⟩ rfl)
  have h3 := h2.step (Step.runCall _ _ _)
  have h4 := h3.step (Step.runErr _ _ _ rfl)
  exact h4

/-- A complete execution of `inpEnvMiss`: `log.Fatalf` on the missing
variable before any `Run` call. -/
theorem reach_envmiss :
    Reachable inpEnvMiss ⟨MPC.fatal, GPC.gNone, false, [Ev.registerSig]⟩ := by
  have h0 : Reachable inpEnvMiss ⟨MPC.start0, GPC.gNone, false, []⟩ :=
    Reachable.init
  have h1 := h0.step (Step.reg _ _ _ (by decide))
  have h2 := h1.step
    (Step.cfgFatal _ _ _ (Abort.fatalMissingEnv (asciiBytes "FOO")) rfl)
  exact h2

/-! ### The claims -/

/-- C1: for every entry `n:p` of the comma-separated volume flag (with the
volume name `n` containing no colon), the derived mount has target `p`, and
its volume source is named `bazel-itest-` ++ `n` when `TEST_TARGET` is unset
or empty, and `bazel-itest-` ++ `n` ++ `-` ++ `s` when it is non-empty,
where `s` is the lowercase hexadecimal SHA-256 digest of the `TEST_TARGET`
value.  The suffix `s` is `hexEncode (sha256 ·)` of the `TEST_TARGET` value
alone, so it depends on nothing but `TEST_TARGET`. -/
theorem c1_volume_mount_naming (inp : Inp) (c : Config) (n p : List Nat)
    (hok : makeConfig inp = Except.ok c) (hn : colonB ∉ n)
    (hmem : n ++ colonB :: p ∈ splitOn commaB inp.flags.volume) :
    (⟨volName (hexSuffix (inp.getenv (asciiBytes "TEST_TARGET"))) n, p⟩ :
      ContainerMount) ∈ c.mounts ∧
    volName (hexSuffix (inp.getenv (asciiBytes "TEST_TARGET"))) n =
      (if inp.getenv (asciiBytes "TEST_TARGET") = [] then
        asciiBytes "bazel-itest-" ++ n
      else
        asciiBytes "bazel-itest-" ++ n ++ dashB ::
          hexEncode (sha256 (inp.getenv (asciiBytes "TEST_TARGET")))) := by
  have hbm := (makeConfig_ok_parts hok).2.2.1
  have hne : n ++ colonB :: p ≠ [] := by simp
  constructor
  · exact buildMounts_ok_mem hbm hmem hne (mountOfEntry_split hn)
  · by_cases ht : inp.getenv (asciiBytes "TEST_TARGET") = []
    · simp [volName, hexSuffix, ht]
    · have hs : hexEncode (sha256 (inp.getenv (asciiBytes "TEST_TARGET"))) ≠ [] :=
        hexEncode_ne_nil (sha256_ne_nil _)
      simp [volName, hexSuffix, ht, hs]

set_option maxRecDepth 100000 in
/-- Witness for C1: the flag `data:/var/lib` under `TEST_TARGET=abc` derives
the mount of `/var/lib` from the volume
`bazel-itest-data-<sha256("abc") in hex>`. -/
theorem c1_volume_mount_naming_witness :
    (⟨volName (hexSuffix (inpC1.getenv (asciiBytes "TEST_TARGET")))
        (asciiBytes "data"), asciiBytes "/var/lib"⟩ : ContainerMount) ∈
      cfgC1.mounts ∧
    volName (hexSuffix (inpC1.getenv (asciiBytes "TEST_TARGET")))
        (asciiBytes "data") =
      (if inpC1.getenv (asciiBytes "TEST_TARGET") = [] then
        asciiBytes "bazel-itest-" ++ asciiBytes "data"
      else
        asciiBytes "bazel-itest-" ++ asciiBytes "data" ++ dashB ::
          hexEncode (sha256 (inpC1.getenv (asciiBytes "TEST_TARGET")))) :=
  c1_volume_mount_naming inpC1 cfgC1 (asciiBytes "data") (asciiBytes "/var/lib")
    rfl (by decide) (by decide)

/-- C2: in every execution, the terminate-container API is called only after
a SIGINT/SIGTERM has been received: every occurrence of the terminate event
in a reachable trace is strictly preceded by the signal event. -/
theorem c2_terminate_after_signal (inp : Inp) (s : St) (hr : Reachable inp s) :
    memBefore Ev.sigReceived Ev.terminate s.trace :=
  (reachable_maininv hr).sigBeforeTerm

/-- Witness for C2 at the complete execution of `inpBase`. -/
theorem c2_terminate_after_signal_witness :
    memBefore Ev.sigReceived Ev.terminate
      [Ev.registerSig, Ev.startContainer, Ev.sigReceived, Ev.terminate,
       Ev.mainExit] :=
  c2_terminate_after_signal inpBase
    ⟨MPC.exited, GPC.gDone, true,
     [Ev.registerSig, Ev.startContainer, Ev.sigReceived, Ev.terminate,
      Ev.mainExit]⟩ reach_full

/-- Counterexample to C3 as stated: `signal.NotifyContext` runs at the top
of `main`, before `testcontainers.Run`, so there is a reachable state whose
trace contains both events with the registration strictly first — the signal
handler is not registered after the start call. -/
theorem c3_counterexample :
    ∃ s, Reachable inpBase s ∧ Ev.registerSig ∈ s.trace ∧
      Ev.startContainer ∈ s.trace ∧
      ¬ memBefore Ev.startContainer Ev.registerSig s.trace := by
  refine ⟨⟨MPC.postRun, GPC.gNone, false,
    [Ev.registerSig, Ev.startContainer]⟩, reach_mid, by decide, by decide,
    fun hmb => ?_⟩
  have := hmb [] [Ev.startContainer] rfl
  simp at this

/-- C3 (amended): in every execution the signal handler is registered
BEFORE the external runtime client is called to start the container: every
start event in a reachable trace is strictly preceded by the registration
event. -/
theorem c3_registration_before_start (inp : Inp) (s : St)
    (hr : Reachable inp s) :
    memBefore Ev.registerSig Ev.startContainer s.trace :=
  (reachable_maininv hr).regBeforeStart

/-- Witness for the amended C3 at the complete execution of `inpBase`. -/
theorem c3_registration_before_start_witness :
    memBefore Ev.registerSig Ev.startContainer
      [Ev.registerSig, Ev.startContainer, Ev.sigReceived, Ev.terminate,
       Ev.mainExit] :=
  c3_registration_before_start inpBase
    ⟨MPC.exited, GPC.gDone, true,
     [Ev.registerSig, Ev.startContainer, Ev.sigReceived, Ev.terminate,
      Ev.mainExit]⟩ reach_full

/-- C4: `main` returns only after the shutdown completed: every exit event
is strictly preceded by the terminate call, and in any state where `main`
has returned the shutdown goroutine has finished (the `wg.Wait()`), having
called terminate. -/
theorem c4_exit_after_shutdown (inp : Inp) (s : St) (hr : Reachable inp s) :
    memBefore Ev.terminate Ev.mainExit s.trace ∧
    (s.mpc = MPC.exited → s.gpc = GPC.gDone ∧ Ev.terminate ∈ s.trace) :=
  ⟨(reachable_maininv hr).termBeforeExit,
   fun h => ⟨(reachable_maininv hr).exitDone h,
     (reachable_maininv hr).termMem ((reachable_maininv hr).exitDone h)⟩⟩

/-- Witness for C4 at the complete execution of `inpBase`. -/
theorem c4_exit_after_shutdown_witness :
    memBefore Ev.terminate Ev.mainExit
      [Ev.registerSig, Ev.startContainer, Ev.sigReceived, Ev.terminate,
       Ev.mainExit] ∧
    ((MPC.exited : MPC) = MPC.exited → (GPC.gDone : GPC) = GPC.gDone ∧
      Ev.terminate ∈
        [Ev.registerSig, Ev.startContainer, Ev.sigReceived, Ev.terminate,
         Ev.mainExit]) :=
  c4_exit_after_shutdown inpBase
    ⟨MPC.exited, GPC.gDone, true,
     [Ev.registerSig, Ev.startContainer, Ev.sigReceived, Ev.terminate,
      Ev.mainExit]⟩ reach_full

/-- C5: for every non-empty name `K` of the comma-separated env flag list,
the environment map passed to the container maps `K` to the value of `K` in
the tool's own process environment, and the map binds exactly the listed
non-empty names and no others. -/
theorem c5_env_passthrough (inp : Inp) (c : Config)
    (hok : makeConfig inp = Except.ok c) (k : List Nat) :
    (k ≠ [] ∧ k ∈ splitOn commaB inp.flags.env →
      lookupA k c.environment = some (inp.getenv k)) ∧
    (∀ v, lookupA k c.environment = some v →
      k ≠ [] ∧ k ∈ splitOn commaB inp.flags.env ∧ v = inp.getenv k) := by
  have he := (makeConfig_ok_parts hok).2.1
  have hvals : ∀ kv ∈ c.environment, kv.2 = inp.getenv kv.1 :=
    buildEnv_values he (by intro kv hkv; cases hkv)
  constructor
  · rintro ⟨hne, hmem⟩
    obtain ⟨v, hv⟩ := buildEnv_dom_sup he hmem hne
    obtain ⟨v', hv'⟩ := lookupA_isSome ⟨v, hv⟩
    have hm' := lookupA_mem hv'
    have hval := hvals _ hm'
    rw [hv']
    exact congrArg some hval
  · intro v hv
    have hm' := lookupA_mem hv
    have hval := hvals _ hm'
    rcases buildEnv_dom_sub he _ hm' with ⟨v', hv'⟩ | ⟨hmem, hne⟩
    · cases hv'
    · exact ⟨hne, hmem, hval⟩

/-- Witness for C5: with the list `FOO,BAR` and both variables set, `BAR`
looks up to its process-environment value, and any binding of `BAR` comes
from the list. -/
theorem c5_env_passthrough_witness :
    (asciiBytes "BAR" ≠ [] ∧
        asciiBytes "BAR" ∈ splitOn commaB inpC5.flags.env →
      lookupA (asciiBytes "BAR") cfgC5.environment =
        some (inpC5.getenv (asciiBytes "BAR"))) ∧
    (∀ v, lookupA (asciiBytes "BAR") cfgC5.environment = some v →
      asciiBytes "BAR" ≠ [] ∧
      asciiBytes "BAR" ∈ splitOn commaB inpC5.flags.env ∧
      v = inpC5.getenv (asciiBytes "BAR")) :=
  c5_env_passthrough inpC5 cfgC5 rfl (asciiBytes "BAR")

/-- C6: for every value of the ports flag, the exposed-ports list passed to
the container is exactly the non-empty comma-separated segments of the flag,
verbatim and in order, with empty segments skipped. -/
theorem c6_ports_filter (ports : List Nat) :
    exposedPorts (splitOn commaB ports) =
      (splitOn commaB ports).filter (fun seg => decide (seg ≠ [])) := by
  generalize splitOn commaB ports = l
  induction l with
  | nil => rfl
  | cons x rest ih =>
      by_cases hx : x = []
      · simp [exposedPorts, hx, ih]
      · simp [exposedPorts, hx, ih]

/-- C7: the start-container API is invoked at most once in every execution,
and when the `Run` call fails the program never terminates a container,
never returns normally, and after the single start call sits on the fatal
`log.Fatalf` path. -/
theorem c7_single_start_no_retry (inp : Inp) (s : St) (hr : Reachable inp s) :
    s.trace.count Ev.startContainer ≤ 1 ∧
    (inp.runFails = true →
      Ev.terminate ∉ s.trace ∧ Ev.mainExit ∉ s.trace ∧
      s.mpc ≠ MPC.exited ∧
      (Ev.startContainer ∈ s.trace →
        s.mpc = MPC.postRun ∨ s.mpc = MPC.fatal)) := by
  have I := reachable_maininv hr
  exact ⟨I.startOnce, fun h =>
    ⟨(I.failInv h).2.1, (I.failInv h).2.2.1, (I.failInv h).2.2.2.2.2,
     I.failStart h⟩⟩

/-- Witness for C7 at the failing-`Run` execution of `inpFail`. -/
theorem c7_single_start_no_retry_witness :
    ([Ev.registerSig, Ev.startContainer] : List Ev).count Ev.startContainer
        ≤ 1 ∧
    (inpFail.runFails = true →
      Ev.terminate ∉ ([Ev.registerSig, Ev.startContainer] : List Ev) ∧
      Ev.mainExit ∉ ([Ev.registerSig, Ev.startContainer] : List Ev) ∧
      (MPC.fatal : MPC) ≠ MPC.exited ∧
      (Ev.startContainer ∈ ([Ev.registerSig, Ev.startContainer] : List Ev) →
        (MPC.fatal : MPC) = MPC.postRun ∨ (MPC.fatal : MPC) = MPC.fatal)) :=
  c7_single_start_no_retry inpFail
    ⟨MPC.fatal, GPC.gNone, false, [Ev.registerSig, Ev.startContainer]⟩
    reach_fail

/-- C8: any non-empty volume entry containing no `:` separator makes the
volume-mount derivation index past the end of the one-element `SplitN`
result, and the program panics (index out of range). -/
theorem c8_volume_entry_no_colon_panics (vol suffix entry : List Nat)
    (hmem : entry ∈ splitOn commaB vol) (hne : entry ≠ [])
    (hcol : colonB ∉ entry) :
    buildMounts suffix (splitOn commaB vol) =
      Except.error Abort.panicIndexOutOfRange := by
  cases hb : buildMounts suffix (splitOn commaB vol) with
  | error a => rw [buildMounts_err hb]
  | ok ms =>
      obtain ⟨m, hm⟩ := buildMounts_ok_all hb hmem hne
      rw [mountOfEntry_no_colon hcol] at hm
      cases hm

/-- Witness for C8: the colon-free volume flag `data` panics. -/
theorem c8_volume_entry_no_colon_panics_witness :
    buildMounts [] (splitOn commaB (asciiBytes "data")) =
      Except.error Abort.panicIndexOutOfRange :=
  c8_volume_entry_no_colon_panics (asciiBytes "data") [] (asciiBytes "data")
    (by decide) (by decide) (by decide)

/-- C9: any non-empty label entry containing no `=` separator makes the
label-map derivation index past the end of the one-element `SplitN` result,
and the program panics (index out of range). -/
theorem c9_label_entry_no_eq_panics (labels entry : List Nat)
    (hmem : entry ∈ splitOn commaB labels) (hne : entry ≠ [])
    (heq : eqB ∉ entry) :
    buildLabels [] (splitOn commaB labels) =
      Except.error Abort.panicIndexOutOfRange := by
  cases hb : buildLabels [] (splitOn commaB labels) with
  | error a => rw [buildLabels_err hb]
  | ok M =>
      obtain ⟨kv, hkv⟩ := buildLabels_ok_all hb hmem hne
      rw [labelOfEntry_no_eq heq] at hkv
      cases hkv

/-- Witness for C9: the equals-free labels flag `nokey` panics. -/
theorem c9_label_entry_no_eq_panics_witness :
    buildLabels [] (splitOn commaB (asciiBytes "nokey")) =
      Except.error Abort.panicIndexOutOfRange :=
  c9_label_entry_no_eq_panics (asciiBytes "nokey") (asciiBytes "nokey")
    (by decide) (by decide) (by decide)

/-- C10: when a non-empty listed env name is empty or unset in the process
environment, `log.Fatalf` ends the process while deriving the configuration,
so the start-container API is never invoked in any reachable state. -/
theorem c10_missing_env_never_starts (inp : Inp) (k : List Nat) (s : St)
    (hk : k ∈ splitOn commaB inp.flags.env) (hne : k ≠ [])
    (hv : inp.getenv k = []) (hr : Reachable inp s) :
    Ev.startContainer ∉ s.trace := by
  intro hmem
  obtain ⟨c, hc⟩ := (reachable_maininv hr).startCfg hmem
  obtain ⟨a, ha⟩ := buildEnv_err hv hne hk []
  rw [makeConfig_err_env ha] at hc
  cases hc

/-- Witness for C10 at the execution of `inpEnvMiss`, which dies before any
start event. -/
theorem c10_missing_env_never_starts_witness :
    Ev.startContainer ∉ ([Ev.registerSig] : List Ev) :=
  c10_missing_env_never_starts inpEnvMiss (asciiBytes "FOO")
    ⟨MPC.fatal, GPC.gNone, false, [Ev.registerSig]⟩
    (by decide) (by decide) rfl reach_envmiss
